import Mathlib

set_option autoImplicit false

/-
Verification of the markdown document-converter's core pipeline.

The Python sources are shallowly embedded: strings are `List Char`,
Python dictionaries are ordered association lists with Python's
assignment semantics (`dictInsert`), exceptions become `Except`, and
the filesystem / external rendering engines are explicit parameters.
Each definition mirrors one Python function (named after it) from
`app/utils/security.py`, `backend/app/utils/file_handler.py` or
`app/converters/markdown_converter.py`.
-/

/-- Python strings, modelled as lists of characters. -/
abbrev PStr := List Char

/-- ASCII whitespace as recognised by Python's `str.split` / `str.strip`
and the `\s` regex class (space, tab, newline, carriage return,
vertical tab, form feed). -/
def isPySpace (c : Char) : Bool :=
  c == ' ' || c == '\t' || c == '\n' || c == '\r' || c == '\x0b' || c == '\x0c'

/-- Python's regex class `\w` for `str` patterns: `[A-Za-z0-9_]` plus
Unicode word characters.  The ASCII range is exact; in the Latin-1
supplement the letter and numeric word characters are listed exactly;
characters above U+00FF are conservatively all treated as word
characters (Python classifies only Unicode alphanumerics as `\w`
there -- the difference does not affect any theorem below, whose
concrete inputs stay within Latin-1). -/
def isPyWord (c : Char) : Bool :=
  if c.toNat ≤ 0x7F then c.isAlphanum || c == '_'
  else if c.toNat ≤ 0xFF then
    (0xC0 ≤ c.toNat && c.toNat ≠ 0xD7 && c.toNat ≠ 0xF7) ||
    c.toNat == 0xAA || c.toNat == 0xB5 || c.toNat == 0xBA ||
    c.toNat == 0xB2 || c.toNat == 0xB3 || c.toNat == 0xB9
  else true

/-- Python `str.strip()` (no argument): remove leading and trailing
whitespace. -/
def stripPy (s : PStr) : PStr :=
  ((s.dropWhile isPySpace).reverse.dropWhile isPySpace).reverse

/-- Python `str.strip(chars)`: remove leading and trailing characters
belonging to `bad`. -/
def stripChars (bad : List Char) (s : PStr) : PStr :=
  ((s.dropWhile (fun c => bad.contains c)).reverse.dropWhile
      (fun c => bad.contains c)).reverse

/-- Worker for `pySplitWs`; `acc` holds the current word reversed. -/
def pySplitWsAux : PStr → PStr → List PStr
  | [], acc => if acc = [] then [] else [acc.reverse]
  | c :: rest, acc =>
      if isPySpace c then
        if acc = [] then pySplitWsAux rest []
        else acc.reverse :: pySplitWsAux rest []
      else pySplitWsAux rest (c :: acc)

/-- Python `str.split()` with no argument: split on whitespace runs,
discarding empty pieces. -/
def pySplitWs (s : PStr) : List PStr := pySplitWsAux s []

/-- Python `sep.join(parts)`. -/
def joinWith (sep : PStr) : List PStr → PStr
  | [] => []
  | [x] => x
  | x :: xs => x ++ sep ++ joinWith sep xs

/-- The character class `[A-Za-z0-9_.-]` kept by werkzeug's
`_filename_ascii_strip_re`. -/
def allowedFileChar (c : Char) : Bool :=
  c.isAlphanum || c == '_' || c == '.' || c == '-'

/-- `werkzeug.utils.secure_filename` on POSIX (`os.sep = '/'`, no
`altsep`, the Windows device-name branch disabled).  The initial NFKD
normalisation followed by `encode("ascii", "ignore")` is modelled as:
ASCII characters are kept, all others are dropped (NFKD compatibility
decompositions that map non-ASCII letters to ASCII ones are not
modelled; they only change which ASCII letters survive this step and
do not affect the sanitization properties proved below). -/
def secure_filename (s : PStr) : PStr :=
  let s1 := s.filter (fun c => c.toNat ≤ 0x7F)
  let s2 := s1.map (fun c => if c == '/' then ' ' else c)
  let s3 := joinWith ['_'] (pySplitWs s2)
  let s4 := s3.filter allowedFileChar
  stripChars ['.', '_'] s4

/-- One pass of `re.sub(r'[\s_]+', '_', s)`: collapse every run of
whitespace/underscores into a single underscore.  `inRun` records
whether the previous character belonged to a run already replaced. -/
def collapseWUAux : PStr → Bool → PStr
  | [], _ => []
  | c :: rest, inRun =>
      if isPySpace c || c == '_' then
        if inRun then collapseWUAux rest true else '_' :: collapseWUAux rest true
      else c :: collapseWUAux rest false

/-- Index of the last `'.'` in `s`, if any. -/
def lastDotIdx (s : PStr) : Option Nat :=
  (s.reverse.findIdx? (fun c => c == '.')).map (fun j => s.length - 1 - j)

/-- `pathlib.PurePath(s).suffix` for a plain file name: the last
dot-suffix, empty when the only dot is leading or trailing. -/
def pySuffix (s : PStr) : PStr :=
  match lastDotIdx s with
  | some i => if 0 < i ∧ i < s.length - 1 then s.drop i else []
  | none => []

/-- `pathlib.PurePath(s).stem`: the name with `pySuffix` removed. -/
def pyStem (s : PStr) : PStr :=
  s.take (s.length - (pySuffix s).length)

/-- Python slicing `s[:n]` for a possibly negative bound `n`:
a negative bound counts from the end (clamped at zero). -/
def pySliceTo (s : PStr) (n : Int) : PStr :=
  if 0 ≤ n then s.take n.toNat
  else s.take (s.length - (-n).toNat)

/-- The length-cap branch of `sanitize_filename`: when the name is
longer than 255 characters, keep the extension and truncate the stem
to `255 - len(ext)` characters (a Python slice, hence counted from the
end when that bound is negative). -/
def capFilename (s : PStr) : PStr :=
  if 255 < s.length then
    pySliceTo (pyStem s) ((255 : Int) - (pySuffix s).length) ++ pySuffix s
  else s

/-- `app/utils/security.py: sanitize_filename`.  werkzeug's
`secure_filename`, removal of any remaining path separators, removal
of characters outside `\w`, whitespace, dot and hyphen, collapsing of
whitespace/underscore runs, the 255-character cap, and the
`unnamed.md` fallback for an empty or `"."` result. -/
def sanitize_filename (filename : PStr) : PStr :=
  let s1 := secure_filename filename
  let s2 := s1.filter (fun c => c != '/' && c != '\\')
  let s3 := s2.filter (fun c => isPyWord c || isPySpace c || c == '.' || c == '-')
  let s4 := collapseWUAux s3 false
  let s5 := capFilename s4
  if s5 = [] ∨ s5 = ['.'] then ("unnamed.md".toList) else s5

/- Python values as they occur in metadata dictionaries.  `pfloat`
carries the float's printed form (no float arithmetic is performed on
metadata); `pother` stands for any other Python object, carried by its
`str()` rendering; dictionaries are ordered key/value sequences with
Python's assignment semantics.  `PyList`/`PyDict` are spelled out as a
mutual inductive family so that the recursion into nested containers
is structural. -/
mutual
/-- Python metadata values. -/
inductive PyVal : Type where
  | pstr (s : PStr)
  | pint (n : Int)
  | pfloat (r : PStr)
  | pbool (b : Bool)
  | plist (items : PyList)
  | pdict (entries : PyDict)
  | pother (r : PStr)
/-- A Python list of metadata values. -/
inductive PyList : Type where
  | nil
  | cons (v : PyVal) (t : PyList)
/-- A Python dictionary: ordered key/value entries. -/
inductive PyDict : Type where
  | nil
  | cons (k : PStr) (v : PyVal) (t : PyDict)
end

/-- The ordered entries of a `PyDict`, as a plain list. -/
def PyDict.toEntries : PyDict → List (PStr × PyVal)
  | .nil => []
  | .cons k v t => (k, v) :: PyDict.toEntries t

/-- Build a `PyDict` from an entry list. -/
def PyDict.ofEntries : List (PStr × PyVal) → PyDict
  | [] => .nil
  | (k, v) :: t => .cons k v (PyDict.ofEntries t)

/-- The elements of a `PyList`, as a plain list. -/
def PyList.toItems : PyList → List PyVal
  | .nil => []
  | .cons v t => v :: PyList.toItems t

/-- Build a `PyList` from an element list. -/
def PyList.ofItems : List PyVal → PyList
  | [] => .nil
  | v :: t => .cons v (PyList.ofItems t)

/-- `re.sub(r'[^\w-]', '_', key)[:50]` from `sanitize_metadata`:
non-word, non-hyphen characters are replaced by underscores (not
removed), then the key is capped at 50 characters. -/
def cleanKey (k : PStr) : PStr :=
  (k.map (fun c => if isPyWord c || c == '-' then c else '_')).take 50

/-- Worker for `stripTags`.  `none`: scanning outside a candidate tag;
`some buf`: the characters seen since the last unconsumed `'<'`, in
reverse.  Mirrors `re.sub(r'<[^>]+>', '', s)`: a match needs at least
one non-`'>'` character between the brackets, matches are removed
left-to-right without rescanning, and an unterminated `'<'` is kept
literally. -/
def stripTagsAux : PStr → Option PStr → PStr
  | [], none => []
  | [], some buf => '<' :: buf.reverse
  | c :: rest, none =>
      if c == '<' then stripTagsAux rest (some [])
      else c :: stripTagsAux rest none
  | c :: rest, some buf =>
      if c == '>' then
        if buf = [] then '<' :: '>' :: stripTagsAux rest none
        else stripTagsAux rest none
      else stripTagsAux rest (some (c :: buf))

/-- `re.sub(r'<[^>]+>', '', s)`: remove tag-like substrings. -/
def stripTags (s : PStr) : PStr := stripTagsAux s none

/-- Case-insensitive (ASCII) prefix test, for `re.IGNORECASE`. -/
def lowerPre : PStr → PStr → Bool
  | [], _ => true
  | _ :: _, [] => false
  | p :: ps, c :: cs => p.toLower == c.toLower && lowerPre ps cs

/-- Worker for `stripJs`, fuelled by the string length so that the
recursion is structural (each step consumes at least one character,
so the fuel never runs out). -/
def stripJsAux : Nat → PStr → PStr
  | 0, s => s
  | _ + 1, [] => []
  | n + 1, c :: rest =>
      if lowerPre ("javascript:".toList) (c :: rest) then
        stripJsAux n ((c :: rest).drop 11)
      else c :: stripJsAux n rest

/-- `re.sub(r'javascript:', '', s, flags=re.IGNORECASE)`: remove every
case-insensitive occurrence, continuing after each removal. -/
def stripJs (s : PStr) : PStr := stripJsAux s.length s

/-- The string-value branch of `sanitize_metadata`: strip tags, strip
`javascript:`, truncate to 500 characters. -/
def cleanStrVal (s : PStr) : PStr := (stripJs (stripTags s)).take 500

/- `str(value)` for a Python value (container reprs are modelled
without Python's quoting of string elements; no theorem below depends
on them). -/
mutual
/-- Python `str()` of a value. -/
def pyValStr : PyVal → PStr
  | .pstr s => s
  | .pint m => (toString m).toList
  | .pfloat r => r
  | .pbool b => if b then ("True".toList) else ("False".toList)
  | .plist items => '[' :: (pyListStrJoin items ++ [']'])
  | .pdict es => pyDictStrJoin es
  | .pother r => r
/-- Comma-join of the `str()`s of list elements. -/
def pyListStrJoin : PyList → PStr
  | .nil => []
  | .cons v .nil => pyValStr v
  | .cons v t => pyValStr v ++ (", ".toList) ++ pyListStrJoin t
/-- Comma-join of the rendered entries of a dictionary. -/
def pyDictStrJoin : PyDict → PStr
  | .nil => []
  | .cons k v .nil => k ++ (": ".toList) ++ pyValStr v
  | .cons k v t => k ++ (": ".toList) ++ pyValStr v ++ (", ".toList) ++ pyDictStrJoin t
end

/-- Python dictionary assignment `d[k] = v` on an entry list:
overwrite in place when the key exists (keeping its position),
otherwise append. -/
def dictInsert (k : PStr) (v : PyVal) (d : List (PStr × PyVal)) :
    List (PStr × PyVal) :=
  if d.any (fun kv => kv.1 == k) then
    d.map (fun kv => if kv.1 == k then (k, v) else kv)
  else d ++ [(k, v)]

/-- Whether a `PyDict` already has key `k`. -/
def pyDictHasKey (k : PStr) : PyDict → Bool
  | .nil => false
  | .cons k2 _ t => k2 == k || pyDictHasKey k t

/-- Replace the value stored at key `k` (used when the key exists). -/
def pyDictReplace (k : PStr) (v : PyVal) : PyDict → PyDict
  | .nil => .nil
  | .cons k2 v2 t =>
      if k2 == k then .cons k v (pyDictReplace k v t)
      else .cons k2 v2 (pyDictReplace k v t)

/-- Append an entry at the end of a `PyDict`. -/
def pyDictAppend (k : PStr) (v : PyVal) : PyDict → PyDict
  | .nil => .cons k v .nil
  | .cons k2 v2 t => .cons k2 v2 (pyDictAppend k v t)

/-- Python dictionary assignment `d[k] = v` on a `PyDict`. -/
def pyDictSet (k : PStr) (v : PyVal) (d : PyDict) : PyDict :=
  if pyDictHasKey k d then pyDictReplace k v d else pyDictAppend k v d

/-- The list-item branch of `sanitize_metadata`: string items are
tag-stripped, other items stringified, all truncated to 100
characters. -/
def cleanListItem (v : PyVal) : PyVal :=
  match v with
  | .pstr s => .pstr ((stripTags s).take 100)
  | w => .pstr ((pyValStr w).take 100)

/-- `value[:10]` then per-item sanitization, for the list branch of
`sanitize_metadata`. -/
def pyListCleanTake : Nat → PyList → PyList
  | 0, _ => .nil
  | _ + 1, .nil => .nil
  | n + 1, .cons v t => .cons (cleanListItem v) (pyListCleanTake n t)

/- The value dispatch of `sanitize_metadata`: strings are
tag/`javascript:`-stripped and capped at 500; `int`, `float`, `bool`
pass through unchanged; lists are capped at 10 items of at most 100
characters; nested dictionaries recurse through the whole of
`sanitize_metadata` (`sanitizeDictAux` is its loop, accumulator
second); anything else is stringified, tag-stripped and capped at
500. -/
mutual
/-- Sanitize one metadata value (the per-type branches of
`sanitize_metadata`). -/
def sanitizeVal : PyVal → PyVal
  | .pstr s => .pstr (cleanStrVal s)
  | .pint m => .pint m
  | .pfloat r => .pfloat r
  | .pbool b => .pbool b
  | .plist items => .plist (pyListCleanTake 10 items)
  | .pdict es => .pdict (sanitizeDictAux es .nil)
  | .pother r => .pstr ((stripTags r).take 500)
/-- The entry loop of `sanitize_metadata` on a nested dictionary. -/
def sanitizeDictAux : PyDict → PyDict → PyDict
  | .nil, acc => acc
  | .cons k v t, acc =>
      sanitizeDictAux t
        (if cleanKey k = [] then acc else pyDictSet (cleanKey k) (sanitizeVal v) acc)
end

/-- `app/utils/security.py: sanitize_metadata`: iterate the entries in
order, sanitize each key and value, drop entries whose key normalises
to empty, and store with Python dictionary assignment semantics. -/
def sanitize_metadata (es : List (PStr × PyVal)) : List (PStr × PyVal) :=
  es.foldl (fun acc kv =>
    let ck := cleanKey kv.1
    if ck = [] then acc
    else dictInsert ck (sanitizeVal kv.2) acc) []

/-- UTF-8 byte length of one code point. -/
def utf8CharLen (c : Char) : Nat :=
  if c.toNat ≤ 0x7F then 1
  else if c.toNat ≤ 0x7FF then 2
  else if c.toNat ≤ 0xFFFF then 3
  else 4

/-- `len(content.encode('utf-8'))`. -/
def utf8Len (s : PStr) : Nat := (s.map utf8CharLen).sum

/-- Case-insensitive substring test (for the literal suspicious
patterns searched with `re.IGNORECASE`). -/
def lowerSubIn (pat : PStr) : PStr → Bool
  | [] => pat.isEmpty
  | c :: rest => lowerPre pat (c :: rest) || lowerSubIn pat rest

/-- `re.search(r'<script[^>]*>', s, re.IGNORECASE)`: a case-insensitive
`<script` followed (after any non-`'>'` characters) by a `'>'`. -/
def scriptTagIn : PStr → Bool
  | [] => false
  | c :: rest =>
      (lowerPre ("<script".toList) (c :: rest) &&
        ((c :: rest).drop 7).contains '>') ||
      scriptTagIn rest

/-- The fixed suspicious patterns of `validate_file_content` that match
`s`; these are logged, never acted upon. -/
def suspicious_hits (s : PStr) : List PStr :=
  (if scriptTagIn s then [("<script".toList)] else []) ++
  (if lowerSubIn ("javascript:".toList) s then [("javascript:".toList)] else []) ++
  (if lowerSubIn ("onerror=".toList) s then [("onerror=".toList)] else []) ++
  (if lowerSubIn ("onload=".toList) s then [("onload=".toList)] else []) ++
  (if lowerSubIn ("eval(".toList) s then [("eval(".toList)] else []) ++
  (if lowerSubIn ("exec(".toList) s then [("exec(".toList)] else [])

/-- The two `ValueError` reasons raised by `validate_file_content`. -/
inductive ContentError : Type where
  | contentTooLarge
  | binaryContentDetected
  deriving DecidableEq

/-- `app/utils/security.py: validate_file_content`: reject content
whose UTF-8 byte length exceeds `maxSize`, then content containing a
null byte; otherwise succeed, returning the suspicious patterns that
were merely logged. -/
def validate_file_content (content : PStr) (maxSize : Nat) :
    Except ContentError (List PStr) :=
  if maxSize < utf8Len content then .error .contentTooLarge
  else if content.contains '\x00' then .error .binaryContentDetected
  else .ok (suspicious_hits content)

/-- Python `str.replace(pat, '')` for a nonempty literal `pat`:
remove every occurrence, scanning left to right and continuing after
each removal.  Fuelled by the string length so the recursion is
structural (each step consumes at least one character). -/
def removeAllAux : Nat → PStr → PStr → PStr
  | 0, _, s => s
  | _ + 1, _, [] => []
  | n + 1, pat, c :: rest =>
      if pat.isPrefixOf (c :: rest) then removeAllAux n pat ((c :: rest).drop pat.length)
      else c :: removeAllAux n pat rest

/-- `s.replace(pat, '')`. -/
def removeAll (pat s : PStr) : PStr := removeAllAux s.length pat s

/-- Hexadecimal digit, as accepted by Python `int(-, 16)`. -/
def isHexDig (c : Char) : Bool :=
  c.isDigit || ('a' ≤ c && c ≤ 'f') || ('A' ≤ c && c ≤ 'F')

/-- Scanner for a digit run with single underscores between digits
(Python numeric-literal grouping); `prevDig` records whether the
previous character was a digit, so a leading, trailing or doubled
underscore fails. -/
def hexUndAux : PStr → Bool → Bool
  | [], prevDig => prevDig
  | c :: rest, prevDig =>
      if c = '_' then prevDig && hexUndAux rest false
      else isHexDig c && hexUndAux rest true

/-- A nonempty hex-digit run, possibly with single underscores between
digits. -/
def hexUnd (l : PStr) : Bool := hexUndAux l false

/-- Drop an optional leading sign. -/
def dropSign (t : PStr) : PStr :=
  match t with
  | '+' :: r => r
  | '-' :: r => r
  | _ => t

/-- Drop an optional `0x`/`0X` base prefix, which Python allows to be
followed by one underscore. -/
def drop0x (t : PStr) : PStr :=
  match t with
  | '0' :: 'x' :: r => (match r with | '_' :: r2 => r2 | _ => r)
  | '0' :: 'X' :: r => (match r with | '_' :: r2 => r2 | _ => r)
  | _ => t

/-- Acceptance of Python `int(s, 16)`: optional surrounding
whitespace, an optional sign, an optional `0x`/`0X` prefix (which may
be followed by one underscore), then hex digits with single
underscores between digits.  (This is the ASCII fragment; Python
additionally accepts non-ASCII decimal digits and whitespace, none of
which are slashes or dots, so the containment conclusions drawn from
this model carry over.) -/
def pyIntHex16Ok (s : PStr) : Bool :=
  hexUnd (drop0x (dropSign (stripPy s)))

/-- Acceptance of Python `uuid.UUID(jobId)` (the validation performed
by `get_file_path` and `get_job_directory`): remove every occurrence
of `urn:` and `uuid:`, strip surrounding braces, remove every hyphen;
the 32 remaining characters must parse under `int(-, 16)`. -/
def pyUUIDValid (jobId : PStr) : Bool :=
  let h1 := removeAll ("urn:".toList) jobId
  let h2 := removeAll ("uuid:".toList) h1
  let h3 := stripChars ['{', '}'] h2
  let h4 := h3.filter (fun c => c != '-')
  h4.length == 32 && pyIntHex16Ok h4

/-- Split a string into `'/'`-separated components. -/
def splitSlash : PStr → List PStr
  | [] => [[]]
  | c :: rest =>
      if c = '/' then [] :: splitSlash rest
      else
        match splitSlash rest with
        | [] => [[c]]
        | p :: ps => (c :: p) :: ps

/-- Lexical path normalisation of an absolute path's components: drop
empty and `.` components, let `..` pop the previous component (staying
at the root when there is none).  This models `pathlib.Path.resolve`
for paths that do not traverse symlinks. -/
def normComps (cs : List PStr) : List PStr :=
  cs.foldl (fun acc c =>
    if c = [] ∨ c = ['.'] then acc
    else if c = ['.', '.'] then acc.dropLast
    else acc ++ [c]) []

/-- `Path(s).resolve()` in the lexical model, as components.  Paths
are treated as absolute (the conversion service configures absolute
storage directories; prepending a working directory would not change
any theorem below). -/
def resolvePath (s : PStr) : List PStr := normComps (splitSlash s)

/-- `str()` of a resolved path: `/`-joined components, `/` for the
root. -/
def pathStr (cs : List PStr) : PStr :=
  match cs with
  | [] => ['/']
  | _ => cs.foldl (fun acc c => acc ++ '/' :: c) []

/-- The resolved job directory `(base_path / job_id).resolve()` of
`get_file_path`: a job id that is itself absolute replaces the base
(pathlib join semantics); otherwise its components extend the resolved
base and the result is normalised. -/
def jobDirComps (baseDir jobId : PStr) : List PStr :=
  if jobId.head? = some '/' then resolvePath jobId
  else normComps (resolvePath baseDir ++ splitSlash jobId)

/-- The `ValueError`s raised by `get_file_path`. -/
inductive FileError : Type where
  | invalidJobId
  | invalidFormat
  | pathTraversal
  deriving DecidableEq

/-- The filesystem as `get_file_path` observes it: which resolved
directories exist, and the directory listing used by `glob` (in
iteration order). -/
structure FS : Type where
  dirExists : List PStr → Bool
  filesOf : List PStr → List PStr

/-- `glob(f'*.{fmt}')` membership for one directory entry: the name
must not be hidden (leading dot) and must end in `.` followed by the
format. -/
def globMatch (fmt : PStr) (name : PStr) : Bool :=
  match name with
  | [] => false
  | c :: _ => c != '.' && List.isSuffixOf ('.' :: fmt) name

/-- `backend/app/utils/file_handler.py: get_file_path`: validate the
job id as a UUID, then the format, then resolve the job directory and
check containment in the base directory (`str.startswith` on the
resolved paths); `none` when the directory is missing or holds no
file of the requested format, otherwise the first matching file's
path. -/
def get_file_path (fs : FS) (jobId fmt baseDir : PStr) :
    Except FileError (Option PStr) :=
  if ¬ pyUUIDValid jobId then .error .invalidJobId
  else if ¬ (fmt = "docx".toList ∨ fmt = "pdf".toList) then .error .invalidFormat
  else if ¬ List.isPrefixOf (pathStr (resolvePath baseDir))
      (pathStr (jobDirComps baseDir jobId)) then .error .pathTraversal
  else if ¬ fs.dirExists (jobDirComps baseDir jobId) then .ok none
  else
    match (fs.filesOf (jobDirComps baseDir jobId)).find? (globMatch fmt) with
    | some name => .ok (some (pathStr (jobDirComps baseDir jobId) ++ '/' :: name))
    | none => .ok none

/-- Split a string into `'\n'`-separated lines. -/
def splitNl : PStr → List PStr
  | [] => [[]]
  | c :: rest =>
      if c = '\n' then [] :: splitNl rest
      else
        match splitNl rest with
        | [] => [[c]]
        | p :: ps => (c :: p) :: ps

/-- `'\n'.join(lines)`. -/
def joinNl (ls : List PStr) : PStr := joinWith ['\n'] ls

/-- A front-matter boundary line, python-frontmatter's
`FM_BOUNDARY = re.compile(r"^-{3,}\s*$", re.MULTILINE)`: at least
three hyphens followed only by whitespace.  (The regex's `\s*` may
greedily absorb following blank lines; that only moves surrounding
blank material between the chunks, which the YAML load and the final
`strip` make unobservable, so the model works line by line.) -/
def isBoundaryLine (l : PStr) : Bool :=
  3 ≤ (l.takeWhile (fun c => c == '-')).length &&
  (l.dropWhile (fun c => c == '-')).all isPySpace

/-- Split the lines after the opening boundary at the next boundary
line; `none` when there is no closing boundary (python-frontmatter's
`ValueError` branch of `handler.split`). -/
def breakAtBoundary : List PStr → Option (List PStr × List PStr)
  | [] => none
  | l :: rest =>
      if isBoundaryLine l then some ([], rest)
      else
        match breakAtBoundary rest with
        | some (a, b) => some (l :: a, b)
        | none => none

/-- python-frontmatter's detect-and-split on the stripped text:
`some (fm, body)` when the first line is a boundary and a closing
boundary follows, `none` otherwise (no handler detected, or the
caught `ValueError`; both return the stripped text unchanged). -/
def fmSplit (text : PStr) : Option (PStr × PStr) :=
  match splitNl text with
  | [] => none
  | l0 :: rest =>
      if isBoundaryLine l0 then
        match breakAtBoundary rest with
        | some (fmLines, bodyLines) => some (joinNl fmLines, joinNl bodyLines)
        | none => none
      else none

/-- One `key: value` line of the modelled YAML subset: the key before
the first colon (stripped, nonempty), the value after it (a space must
follow the colon; the value is kept as a stripped string). -/
def lineKV (l : PStr) : Option (PStr × PyVal) :=
  match l.findIdx? (fun c => c == ':') with
  | none => none
  | some i =>
      let k := stripPy (l.take i)
      let rest := l.drop (i + 1)
      if rest.head? = some ' ' ∧ k ≠ [] then some (k, .pstr (stripPy rest))
      else none

/-- `yaml.safe_load` on the front-matter block, modelled on the subset
the converter exercises: a blank block loads as `None`
(`some none`), a block of `key: value` lines loads as a string-valued
mapping in document order with later duplicates overwriting
(`some (some d)`), a block with no colon at all is a plain scalar
(`some none`, a non-dict), and anything else is modelled as a YAML
parse error (`none`), which python-frontmatter lets escape to the
caller. -/
def miniYaml (fm : PStr) : Option (Option (List (PStr × PyVal))) :=
  let lines := (splitNl fm).filter (fun l => ¬ l.all isPySpace)
  if lines = [] then some none
  else if lines.all (fun l => (lineKV l).isSome) then
    some (some (lines.foldl (fun acc l =>
      match lineKV l with
      | some kv => dictInsert kv.1 kv.2 acc
      | none => acc) []))
  else if lines.all (fun l => ¬ l.contains ':') then some none
  else none

/-- `app/converters/markdown_converter.py: MarkdownConverter.parse_markdown`,
with `frontmatter.loads` inlined (python-frontmatter first strips the
text, returns the stripped text with empty metadata when no
front-matter block is detected or it cannot be split, and strips the
body; a YAML error escapes `loads` and is caught by `parse_markdown`'s
`except`, which returns the original content unchanged). -/
def parse_markdown (content : PStr) : List (PStr × PyVal) × PStr :=
  let text := stripPy content
  match fmSplit text with
  | none => ([], text)
  | some (fm, body) =>
      match miniYaml fm with
      | none => ([], content)
      | some none => ([], stripPy body)
      | some (some d) => (d, stripPy body)

/-- `metadata.get(k)` / `k in metadata`: first entry with key `k`. -/
def pyGet (md : List (PStr × PyVal)) (k : PStr) : Option PyVal :=
  (md.find? (fun kv => kv.1 == k)).map (fun kv => kv.2)

/-- `key.replace('_', ' ')`. -/
def underscoresToSpaces (k : PStr) : PStr :=
  k.map (fun c => if c == '_' then ' ' else c)

/-- Worker for `pyTitle`; the flag records whether the previous
character was a cased letter. -/
def pyTitleAux : Bool → PStr → PStr
  | _, [] => []
  | prevAlpha, c :: rest =>
      (if c.isAlpha then (if prevAlpha then c.toLower else c.toUpper) else c) ::
        pyTitleAux c.isAlpha rest

/-- Python `str.title()` (ASCII): uppercase every letter that does not
follow a letter, lowercase the others. -/
def pyTitle (s : PStr) : PStr := pyTitleAux false s

/-- Rendering of a metadata value inside a front-matter field: lists
are comma-joined element `str()`s, anything else its `str()`
(datetime values, which the source formats with `strftime`, are not
representable in `PyVal` and so not modelled). -/
def fmFieldVal (v : PyVal) : PStr :=
  match v with
  | .plist items => joinWith (", ".toList) ((PyList.toItems items).map pyValStr)
  | w => pyValStr w

/-- `MarkdownConverter.format_front_matter`: empty string for empty
metadata; otherwise the title (default `Untitled Document`) as an H1
line, then `Author`, `Date`, `Tags` in that fixed order when present,
then the remaining keys title-cased, then a closing rule. -/
def format_front_matter (md : List (PStr × PyVal)) : PStr :=
  if md.isEmpty then []
  else
    let title := (pyGet md ("title".toList)).getD (.pstr ("Untitled Document".toList))
    let l0 := ("# ".toList) ++ pyValStr title ++ ['\n']
    let ls1 := match pyGet md ("author".toList) with
      | some v => [("**Author:** ".toList) ++ pyValStr v ++ ("  ".toList)]
      | none => []
    let ls2 := match pyGet md ("date".toList) with
      | some v => [("**Date:** ".toList) ++ pyValStr v ++ ("  ".toList)]
      | none => []
    let ls3 := match pyGet md ("tags".toList) with
      | some v => [("**Tags:** ".toList) ++ fmFieldVal v ++ ("  ".toList)]
      | none => []
    let excluded := [("title".toList), ("author".toList), ("date".toList), ("tags".toList)]
    let rest := (md.filter (fun kv => ¬ excluded.contains kv.1)).map (fun kv =>
      ("**".toList) ++ pyTitle (underscoresToSpaces kv.1) ++ (":** ".toList) ++
        fmFieldVal kv.2 ++ ("  ".toList))
    joinNl ([l0] ++ ls1 ++ ls2 ++ ls3 ++ rest ++ [("\n---\n".toList)])

/-- One `<p>` field of the PDF front-matter panel. -/
def fmHtmlField (kv : PStr × PyVal) : PStr :=
  ("<p><strong>".toList) ++ pyTitle (underscoresToSpaces kv.1) ++ (":</strong> ".toList) ++
    fmFieldVal kv.2 ++ ("</p>\n".toList)

/-- `MarkdownConverter._format_front_matter_html`: a `front-matter`
`div` (the bordered info panel of the default stylesheet) with a
`Document Information` heading, then every metadata entry as a
`<p><strong>Key:</strong> value</p>` line in dictionary insertion
order, each key title-cased. -/
def format_front_matter_html (md : List (PStr × PyVal)) : PStr :=
  ("<div class=".toList) ++ ['"'] ++ ("front-matter".toList) ++ ['"'] ++ (">\n".toList) ++
  ("<h2>Document Information</h2>\n".toList) ++
  (md.map fmHtmlField).flatten ++ ("</div>\n".toList)

/-- The markdown text `convert_to_docx` hands to pandoc: the parsed
body, preceded by the formatted front matter when requested and
nonempty, joined with a newline. -/
def docx_document (content : PStr) (includeFM : Bool) : PStr :=
  let md := (parse_markdown content).1
  let body := (parse_markdown content).2
  let parts :=
    if includeFM ∧ format_front_matter md ≠ [] then [format_front_matter md, body]
    else [body]
  joinNl parts

/-- The error wrapping every renderer failure. -/
inductive ConvError : Type where
  | conversionError
  deriving DecidableEq

/-- `MarkdownConverter.convert_to_docx`, with the external pandoc
engine abstracted by its outcome `pandocOk` and the filesystem by the
list of files present: on success pandoc writes the output file and
the path is returned, on failure the exception is wrapped into
`ConversionError` and no file is written.  (`content` and `includeFM`
feed `docx_document`, the text handed to the engine; the engine's
outcome is independent of it in this model.) -/
def convert_to_docx (pandocOk : Bool) (content outPath : PStr) (includeFM : Bool)
    (files : List PStr) : List PStr × Except ConvError PStr :=
  let _ := docx_document content includeFM
  if pandocOk then (outPath :: files, .ok outPath)
  else (files, .error .conversionError)

/-- The front-matter panel `convert_to_pdf` places before the
rendered body in its HTML document: present when requested and the
metadata is nonempty. -/
def pdf_front_matter_html (content : PStr) (includeFM : Bool) : PStr :=
  let md := (parse_markdown content).1
  if includeFM ∧ ¬ md.isEmpty then format_front_matter_html md else []

/-- `MarkdownConverter.convert_to_pdf`, abstracted like
`convert_to_docx` (markdown-to-HTML and HTML-to-PDF engines collapsed
into the outcome `weasyOk`; the HTML document handed to the engine
carries `pdf_front_matter_html`). -/
def convert_to_pdf (weasyOk : Bool) (content outPath : PStr) (includeFM : Bool)
    (files : List PStr) : List PStr × Except ConvError PStr :=
  let _ := pdf_front_matter_html content includeFM
  if weasyOk then (outPath :: files, .ok outPath)
  else (files, .error .conversionError)

/-- `MarkdownConverter.convert_to_both`: convert to DOCX (front matter
off by default), then to PDF (front matter on by default), into
`{outputDir}/{baseName}.{ext}`.  The filesystem state is threaded
through and survives a failure: an exception aborts the sequence but
undoes nothing. -/
def convert_to_both (pandocOk weasyOk : Bool) (content baseName outputDir : PStr)
    (files : List PStr) : List PStr × Except ConvError (PStr × PStr) :=
  let docxPath := outputDir ++ '/' :: (baseName ++ (".docx".toList))
  let pdfPath := outputDir ++ '/' :: (baseName ++ (".pdf".toList))
  match convert_to_docx pandocOk content docxPath false files with
  | (files1, .error e) => (files1, .error e)
  | (files1, .ok _) =>
      match convert_to_pdf weasyOk content pdfPath true files1 with
      | (files2, .error e) => (files2, .error e)
      | (files2, .ok _) => (files2, .ok (docxPath, pdfPath))

/-- Index of the first occurrence of `pat` in `s`, if any. -/
def firstSubIdx (pat : PStr) : PStr → Option Nat
  | [] => if pat = [] then some 0 else none
  | c :: rest =>
      if pat.isPrefixOf (c :: rest) then some 0
      else (firstSubIdx pat rest).map (fun i => i + 1)

/-- Both substrings occur in `s` and the first occurrence of `a`
comes strictly before that of `b`. -/
def occursBefore (a b s : PStr) : Bool :=
  match firstSubIdx a s, firstSubIdx b s with
  | some i, some j => decide (i < j)
  | _, _ => false

/-- The spec's key pattern `^[A-Za-z0-9_-]{1,50}$`, written from the
spec's words to compare with the code's actual key sanitization. -/
def specKeyPattern (k : PStr) : Bool :=
  decide (1 ≤ k.length) && decide (k.length ≤ 50) &&
  k.all (fun c => c.isAlphanum || c == '_' || c == '-')

/-- A syntactically valid UUID used as a concrete witness input. -/
def uuidEx : PStr := "123e4567-e89b-12d3-a456-426614174000".toList

/-- The step function of `sanitize_metadata`'s entry loop. -/
def sanitizeStep (acc : List (PStr × PyVal)) (kv : PStr × PyVal) :
    List (PStr × PyVal) :=
  if cleanKey kv.1 = [] then acc
  else dictInsert (cleanKey kv.1) (sanitizeVal kv.2) acc

lemma sanitize_metadata_eq_foldl (es : List (PStr × PyVal)) :
    sanitize_metadata es = es.foldl sanitizeStep [] := rfl

lemma mem_dropWhile_of_not {p : Char → Bool} {l : PStr} {c : Char}
    (hc : c ∈ l) (hp : p c = false) : c ∈ l.dropWhile p := by
  induction l with
  | nil => cases hc
  | cons a rest ih =>
      rw [List.dropWhile_cons]
      rcases List.mem_cons.mp hc with rfl | hmem
      · rw [hp]; exact List.mem_cons_self _ _
      · by_cases ha : p a = true
        · rw [ha]; simp only [if_true]; exact ih hmem
        · rw [Bool.not_eq_true] at ha; rw [ha]
          simp only [Bool.false_eq_true, if_false]
          exact List.mem_cons_of_mem _ hmem

lemma mem_stripChars {bad : List Char} {s : PStr} {c : Char}
    (hc : c ∈ s) (hb : bad.contains c = false) : c ∈ stripChars bad s := by
  unfold stripChars
  rw [List.mem_reverse]
  refine mem_dropWhile_of_not ?_ hb
  rw [List.mem_reverse]
  exact mem_dropWhile_of_not hc hb

lemma mem_stripPy {s : PStr} {c : Char}
    (hc : c ∈ s) (hs : isPySpace c = false) : c ∈ stripPy s := by
  unfold stripPy
  rw [List.mem_reverse]
  refine mem_dropWhile_of_not ?_ hs
  rw [List.mem_reverse]
  exact mem_dropWhile_of_not hc hs

lemma mem_removeAllAux {pat : PStr} {c : Char} (hp : c ∉ pat) :
    ∀ (n : Nat) (s : PStr), c ∈ s → c ∈ removeAllAux n pat s := by
  intro n
  induction n with
  | zero => intro s hc; simpa [removeAllAux] using hc
  | succ m ih =>
      intro s hc
      match s with
      | [] => cases hc
      | a :: rest =>
          rw [removeAllAux]
          by_cases hpre : pat.isPrefixOf (a :: rest) = true
          · rw [if_pos hpre]
            obtain ⟨t, ht⟩ := List.isPrefixOf_iff_prefix.mp hpre
            refine ih _ ?_
            have hct : c ∈ t := by
              have := ht.symm ▸ hc
              rcases List.mem_append.mp this with h1 | h2
              · exact absurd h1 hp
              · exact h2
            rw [← ht, List.drop_left]
            exact hct
          · rw [if_neg hpre]
            rcases List.mem_cons.mp hc with rfl | hmem
            · exact List.mem_cons_self _ _
            · exact List.mem_cons_of_mem _ (ih _ hmem)

lemma mem_removeAll {pat s : PStr} {c : Char} (hc : c ∈ s) (hp : c ∉ pat) :
    c ∈ removeAll pat s :=
  mem_removeAllAux hp _ s hc

lemma mem_dropSign {t : PStr} {c : Char} (hc : c ∈ t)
    (h1 : c ≠ '+') (h2 : c ≠ '-') : c ∈ dropSign t := by
  unfold dropSign
  split
  · rcases List.mem_cons.mp hc with h | h
    · exact absurd h h1
    · exact h
  · rcases List.mem_cons.mp hc with h | h
    · exact absurd h h2
    · exact h
  · exact hc

lemma mem_drop0x {t : PStr} {c : Char} (hc : c ∈ t)
    (h0 : c ≠ '0') (hx : c ≠ 'x') (hX : c ≠ 'X') (hu : c ≠ '_') :
    c ∈ drop0x t := by
  unfold drop0x
  split
  · rename_i r
    have hr : c ∈ r := by
      rcases List.mem_cons.mp hc with h | h
      · exact absurd h h0
      · rcases List.mem_cons.mp h with h2 | h2
        · exact absurd h2 hx
        · exact h2
    split
    · rcases List.mem_cons.mp hr with h | h
      · exact absurd h hu
      · exact h
    · exact hr
  · rename_i r
    have hr : c ∈ r := by
      rcases List.mem_cons.mp hc with h | h
      · exact absurd h h0
      · rcases List.mem_cons.mp h with h2 | h2
        · exact absurd h2 hX
        · exact h2
    split
    · rcases List.mem_cons.mp hr with h | h
      · exact absurd h hu
      · exact h
    · exact hr
  · exact hc

lemma hexUndAux_chars {l : PStr} {c : Char} :
    ∀ b : Bool, hexUndAux l b = true → c ∈ l → isHexDig c = true ∨ c = '_' := by
  induction l with
  | nil => intro b _ hc; cases hc
  | cons a rest ih =>
      intro b hb hc
      rw [hexUndAux] at hb
      rcases List.mem_cons.mp hc with rfl | hmem
      · by_cases ha : c = '_'
        · exact Or.inr ha
        · rw [if_neg ha] at hb
          exact Or.inl (Bool.and_elim_left hb)
      · by_cases ha : a = '_'
        · rw [if_pos ha] at hb
          exact ih false (Bool.and_elim_right hb) hmem
        · rw [if_neg ha] at hb
          exact ih true (Bool.and_elim_right hb) hmem

lemma pyIntHex16_no_char {s : PStr} {c : Char}
    (h : pyIntHex16Ok s = true)
    (hsp : isPySpace c = false) (hhex : isHexDig c = false)
    (hu : c ≠ '_') (hplus : c ≠ '+') (hminus : c ≠ '-')
    (h0 : c ≠ '0') (hx : c ≠ 'x') (hX : c ≠ 'X') : c ∉ s := by
  intro hc
  unfold pyIntHex16Ok hexUnd at h
  have h1 : c ∈ stripPy s := mem_stripPy hc hsp
  have h2 : c ∈ dropSign (stripPy s) := mem_dropSign h1 hplus hminus
  have h3 : c ∈ drop0x (dropSign (stripPy s)) := mem_drop0x h2 h0 hx hX hu
  rcases hexUndAux_chars false h h3 with hd | hd
  · rw [hd] at hhex; cases hhex
  · exact hu hd

lemma pyUUID_no_char {s : PStr} {c : Char} (h : pyUUIDValid s = true)
    (hurn : c ∉ ("urn:".toList)) (huuid : c ∉ ("uuid:".toList))
    (hbrace : (['\x7b', '\x7d'] : List Char).contains c = false) (hdash : c ≠ '-')
    (hsp : isPySpace c = false) (hhex : isHexDig c = false)
    (hu : c ≠ '_') (hplus : c ≠ '+') (h0 : c ≠ '0') (hx : c ≠ 'x') (hX : c ≠ 'X') :
    c ∉ s := by
  intro hc
  simp only [pyUUIDValid] at h
  rw [Bool.and_eq_true] at h
  have h1 := mem_removeAll hc hurn
  have h2 := mem_removeAll h1 huuid
  have h3 := mem_stripChars h2 hbrace
  have h4 : c ∈ (stripChars ['\x7b', '\x7d']
      (removeAll ("uuid:".toList) (removeAll ("urn:".toList) s))).filter
        (fun a => a != '-') :=
    List.mem_filter.mpr ⟨h3, by simp [hdash]⟩
  exact pyIntHex16_no_char h.2 hsp hhex hu hplus hdash h0 hx hX h4

lemma pyUUID_no_slash {s : PStr} (h : pyUUIDValid s = true) : '/' ∉ s :=
  pyUUID_no_char h (by decide) (by decide) (by decide) (by decide) (by decide)
    (by decide) (by decide) (by decide) (by decide) (by decide) (by decide)

lemma pyUUID_no_dot {s : PStr} (h : pyUUIDValid s = true) : '.' ∉ s :=
  pyUUID_no_char h (by decide) (by decide) (by decide) (by decide) (by decide)
    (by decide) (by decide) (by decide) (by decide) (by decide) (by decide)

lemma pyUUID_ne_nil {s : PStr} (h : pyUUIDValid s = true) : s ≠ [] := by
  intro he
  rw [he] at h
  exact absurd h (by decide)

lemma splitSlash_no_slash {s : PStr} (h : '/' ∉ s) : splitSlash s = [s] := by
  induction s with
  | nil => rfl
  | cons a rest ih =>
      have ha : ¬ a = '/' := fun he => h (he ▸ List.mem_cons_self a rest)
      have hr : '/' ∉ rest := fun hm => h (List.mem_cons_of_mem _ hm)
      rw [splitSlash, if_neg ha, ih hr]

lemma normComps_append_single (cs : List PStr) (c : PStr)
    (h1 : c ≠ []) (h2 : c ≠ ['.']) (h3 : c ≠ ['.', '.']) :
    normComps (cs ++ [c]) = normComps cs ++ [c] := by
  unfold normComps
  rw [List.foldl_append, List.foldl_cons, List.foldl_nil]
  rw [if_neg (by rintro (rfl | rfl) <;> [exact h1 rfl; exact h2 rfl]), if_neg h3]

lemma normComps_step (cs : List PStr) (c : PStr) :
    normComps (cs ++ [c]) =
      if c = [] ∨ c = ['.'] then normComps cs
      else if c = ['.', '.'] then (normComps cs).dropLast
      else normComps cs ++ [c] := by
  unfold normComps
  rw [List.foldl_append, List.foldl_cons, List.foldl_nil]

lemma normComps_all_norm (cs : List PStr) :
    ∀ x ∈ normComps cs, x ≠ [] ∧ x ≠ ['.'] ∧ x ≠ ['.', '.'] := by
  induction cs using List.reverseRecOn with
  | nil => intro x hx; cases hx
  | append_singleton cs c ih =>
      intro x hx
      rw [normComps_step] at hx
      by_cases hc1 : c = [] ∨ c = ['.']
      · rw [if_pos hc1] at hx; exact ih x hx
      · rw [if_neg hc1] at hx
        by_cases hc2 : c = ['.', '.']
        · rw [if_pos hc2] at hx
          exact ih x (List.dropLast_subset _ hx)
        · rw [if_neg hc2] at hx
          rcases List.mem_append.mp hx with hm | hm
          · exact ih x hm
          · rcases List.mem_singleton.mp hm with rfl
            exact ⟨fun he => hc1 (Or.inl he), fun he => hc1 (Or.inr he), hc2⟩

lemma normComps_id_of_norm (cs : List PStr)
    (h : ∀ x ∈ cs, x ≠ [] ∧ x ≠ ['.'] ∧ x ≠ ['.', '.']) :
    normComps cs = cs := by
  induction cs using List.reverseRecOn with
  | nil => rfl
  | append_singleton cs c ih =>
      have hc := h c (List.mem_append.mpr (Or.inr (List.mem_singleton.mpr rfl)))
      rw [normComps_append_single cs c hc.1 hc.2.1 hc.2.2,
        ih (fun x hx => h x (List.mem_append.mpr (Or.inl hx)))]

lemma resolvePath_norm (s : PStr) : normComps (resolvePath s) = resolvePath s :=
  normComps_id_of_norm _ (normComps_all_norm _)

lemma pathStr_prefix_append (cs : List PStr) (c : PStr) :
    List.isPrefixOf (pathStr cs) (pathStr (cs ++ [c])) = true := by
  rw [List.isPrefixOf_iff_prefix]
  cases cs with
  | nil =>
      show pathStr [] <+: pathStr [c]
      simp only [pathStr, List.foldl_cons, List.foldl_nil, List.nil_append]
      exact ⟨c, rfl⟩
  | cons a as =>
      have h1 : pathStr (a :: as) = List.foldl (fun acc x => acc ++ '/' :: x) [] (a :: as) := rfl
      have h2 : pathStr ((a :: as) ++ [c]) =
          List.foldl (fun acc x => acc ++ '/' :: x) [] ((a :: as) ++ [c]) := rfl
      rw [h1, h2, List.foldl_append]
      exact ⟨'/' :: c, rfl⟩

lemma uuid_jobdir {jobId : PStr} (baseDir : PStr) (h : pyUUIDValid jobId = true) :
    jobDirComps baseDir jobId = resolvePath baseDir ++ [jobId] := by
  have hs : '/' ∉ jobId := pyUUID_no_slash h
  have hd : '.' ∉ jobId := pyUUID_no_dot h
  have hn : jobId ≠ [] := pyUUID_ne_nil h
  have hne1 : jobId ≠ ['.'] := fun he => hd (he ▸ List.mem_singleton.mpr rfl)
  have hne2 : jobId ≠ ['.', '.'] := fun he => hd (he ▸ List.mem_cons_self _ _)
  unfold jobDirComps
  rw [if_neg ?hhead, splitSlash_no_slash hs,
    normComps_append_single _ _ hn hne1 hne2]
  · unfold resolvePath
    rw [normComps_id_of_norm _ (normComps_all_norm _)]
  case hhead =>
    intro hh
    cases jobId with
    | nil => cases hh
    | cons a r =>
        have : a = '/' := by simpa using hh
        exact hs (this ▸ List.mem_cons_self a r)

lemma uuid_containment {jobId : PStr} (baseDir : PStr) (h : pyUUIDValid jobId = true) :
    List.isPrefixOf (pathStr (resolvePath baseDir)) (pathStr (jobDirComps baseDir jobId)) =
      true := by
  rw [uuid_jobdir baseDir h]
  exact pathStr_prefix_append _ _

/-- C3: for the crafted job id `"../../etc"` — and any job id that is
not a syntactically valid UUID — `get_file_path` fails with the
invalid-job-id error.  The result is the same for every filesystem
and every base directory: the failure is decided by the UUID syntax
check alone, before the path-containment check (which depends on
`baseDir`) or any filesystem access could run. -/
theorem c3_invalid_jobid_fails_first :
    (∀ (fs : FS) (fmt baseDir jobId : PStr), pyUUIDValid jobId = false →
      get_file_path fs jobId fmt baseDir = Except.error FileError.invalidJobId) ∧
    pyUUIDValid ("../../etc".toList) = false := by
  constructor
  · intro fs fmt baseDir jobId h
    simp [get_file_path, h]
  · decide

/-- Witness: `c3_invalid_jobid_fails_first` applied to `"../../etc"`
on a concrete filesystem. -/
theorem c3_invalid_jobid_fails_first_witness :
    get_file_path ⟨fun _ => true, fun _ => []⟩ ("../../etc".toList) ("docx".toList)
      ("/data/converted".toList) = Except.error FileError.invalidJobId :=
  c3_invalid_jobid_fails_first.1 ⟨fun _ => true, fun _ => []⟩ ("docx".toList)
    ("/data/converted".toList) ("../../etc".toList) (by decide)

/-- C9: the path-traversal branch of `get_file_path` is unreachable:
every job id that passes the UUID syntax validation contains no `/`
and no `.`, so joining the base directory with it resolves to the
base extended by exactly one component — strictly inside the base —
and the `startswith` containment check always succeeds; the traversal
error is never raised. -/
theorem c9_path_traversal_unreachable :
    ∀ jobId : PStr, pyUUIDValid jobId = true →
      (∀ baseDir : PStr,
        jobDirComps baseDir jobId = resolvePath baseDir ++ [jobId] ∧
        List.isPrefixOf (pathStr (resolvePath baseDir))
          (pathStr (jobDirComps baseDir jobId)) = true) ∧
      (∀ (fs : FS) (fmt baseDir : PStr),
        get_file_path fs jobId fmt baseDir ≠ Except.error FileError.pathTraversal) := by
  intro jobId h
  refine ⟨fun baseDir => ⟨uuid_jobdir baseDir h, uuid_containment baseDir h⟩, ?_⟩
  intro fs fmt baseDir
  unfold get_file_path
  rw [if_neg (by simp [h])]
  by_cases hf : fmt = "docx".toList ∨ fmt = "pdf".toList
  · rw [if_neg (not_not_intro hf), if_neg (by simp [uuid_containment baseDir h])]
    by_cases hd : fs.dirExists (jobDirComps baseDir jobId) = true
    · rw [if_neg (by simp [hd])]
      cases (fs.filesOf (jobDirComps baseDir jobId)).find? (globMatch fmt) with
      | some name => simp
      | none => simp
    · rw [if_pos (by simp [Bool.not_eq_true] at hd ⊢; exact hd)]
      simp
  · rw [if_pos hf]
    simp

/-- Witness: `c9_path_traversal_unreachable` at a concrete UUID, base
directory and filesystem. -/
theorem c9_path_traversal_unreachable_witness :
    get_file_path ⟨fun _ => true, fun _ => []⟩ uuidEx ("docx".toList)
      ("/data/converted".toList) ≠ Except.error FileError.pathTraversal :=
  (c9_path_traversal_unreachable uuidEx (by decide)).2 ⟨fun _ => true, fun _ => []⟩
    ("docx".toList) ("/data/converted".toList)

/-- C8: for every syntactically valid UUID job id, `get_file_path`
returns `none` rather than raising when the job directory does not
exist, and likewise when the directory exists but no entry matches
the requested format's glob. -/
theorem c8_valid_uuid_missing_returns_none :
    ∀ (fs : FS) (jobId fmt baseDir : PStr),
      pyUUIDValid jobId = true →
      (fmt = "docx".toList ∨ fmt = "pdf".toList) →
      (fs.dirExists (jobDirComps baseDir jobId) = false →
        get_file_path fs jobId fmt baseDir = Except.ok none) ∧
      ((∀ name ∈ fs.filesOf (jobDirComps baseDir jobId), globMatch fmt name = false) →
        get_file_path fs jobId fmt baseDir = Except.ok none) := by
  intro fs jobId fmt baseDir h hf
  constructor
  · intro hd
    unfold get_file_path
    rw [if_neg (by simp [h]), if_neg (not_not_intro hf),
      if_neg (by simp [uuid_containment baseDir h]), if_pos (by simp [hd])]
  · intro hnone
    unfold get_file_path
    rw [if_neg (by simp [h]), if_neg (not_not_intro hf),
      if_neg (by simp [uuid_containment baseDir h])]
    by_cases hd : fs.dirExists (jobDirComps baseDir jobId) = true
    · rw [if_neg (by simp [hd]),
        List.find?_eq_none.mpr (fun x hx => by simp [hnone x hx])]
    · rw [if_pos (by simp [Bool.not_eq_true] at hd ⊢; exact hd)]

/-- Witness: `c8_valid_uuid_missing_returns_none` at a concrete UUID
whose directory is absent. -/
theorem c8_valid_uuid_missing_returns_none_witness :
    get_file_path ⟨fun _ => false, fun _ => []⟩ uuidEx ("docx".toList)
      ("/data/converted".toList) = Except.ok none :=
  (c8_valid_uuid_missing_returns_none ⟨fun _ => false, fun _ => []⟩ uuidEx
    ("docx".toList) ("/data/converted".toList) (by decide) (Or.inl rfl)).1 rfl

/-- C7: `validate_file_content` succeeds exactly when the UTF-8 byte
length is within `maxSize` and no null byte occurs.  Oversized content
fails with the content-too-large error (this check runs first), a
null byte in content of admissible size fails with the binary-content
error, and on success the suspicious-pattern matches are only
returned as the logged list — they never cause rejection. -/
theorem c7_validate_content :
    ∀ (content : PStr) (maxSize : Nat),
      ((∃ w, validate_file_content content maxSize = Except.ok w) ↔
        (utf8Len content ≤ maxSize ∧ content.contains '\x00' = false)) ∧
      (maxSize < utf8Len content →
        validate_file_content content maxSize =
          Except.error ContentError.contentTooLarge) ∧
      (utf8Len content ≤ maxSize → content.contains '\x00' = true →
        validate_file_content content maxSize =
          Except.error ContentError.binaryContentDetected) ∧
      (utf8Len content ≤ maxSize → content.contains '\x00' = false →
        validate_file_content content maxSize =
          Except.ok (suspicious_hits content)) := by
  intro content maxSize
  unfold validate_file_content
  by_cases h1 : maxSize < utf8Len content
  · rw [if_pos h1]
    refine ⟨⟨fun hw => ?_, fun hc => ?_⟩, fun _ => rfl, fun hle _ => ?_, fun hle _ => ?_⟩
    · obtain ⟨w, hw⟩ := hw; cases hw
    · exact absurd h1 (by omega)
    · exact absurd h1 (by omega)
    · exact absurd h1 (by omega)
  · rw [if_neg h1]
    by_cases h2 : content.contains '\x00' = true
    · rw [if_pos h2]
      refine ⟨⟨fun hw => ?_, fun hc => ?_⟩, fun hlt => absurd hlt h1,
        fun _ _ => rfl, fun _ hnull => ?_⟩
      · obtain ⟨w, hw⟩ := hw; cases hw
      · rw [h2] at hc; exact absurd hc.2 (by simp)
      · rw [h2] at hnull; cases hnull
    · rw [if_neg h2]
      refine ⟨⟨fun _ => ⟨by omega, by rwa [Bool.not_eq_true] at h2⟩,
        fun _ => ⟨suspicious_hits content, rfl⟩⟩,
        fun hlt => absurd hlt h1, fun _ hc => absurd hc h2, fun _ _ => rfl⟩

/-- Witness: `c7_validate_content` on a small clean content. -/
theorem c7_validate_content_witness :
    validate_file_content ("hello".toList) 100 =
      Except.ok (suspicious_hits ("hello".toList)) :=
  (c7_validate_content ("hello".toList) 100).2.2.2 (by decide) (by decide)

/-- C1 (counterexample): requesting both formats where the second
renderer (PDF) fails does abort with `ConversionError`, but the job
directory is not left without output files: starting from an empty
directory, the failing call leaves exactly the DOCX file written by
the first renderer, refuting the all-or-nothing zero-file claim. -/
theorem c1_counterexample :
    (convert_to_both true false ("hello".toList) ("document".toList)
        ("/tmp/out".toList) []).2 = Except.error ConvError.conversionError ∧
    (convert_to_both true false ("hello".toList) ("document".toList)
        ("/tmp/out".toList) []).1 = [("/tmp/out/document.docx".toList)] :=
  ⟨rfl, rfl⟩

/-- C1 (amended): when the second renderer fails, `convert_to_both`
aborts with `ConversionError`, returns no result paths, and writes no
PDF file — but it is not all-or-nothing on disk: the DOCX file
written by the first renderer remains in the job directory. -/
theorem c1_amended :
    ∀ (content baseName outputDir : PStr) (files : List PStr),
      (convert_to_both true false content baseName outputDir files).2 =
        Except.error ConvError.conversionError ∧
      (convert_to_both true false content baseName outputDir files).1 =
        (outputDir ++ '/' :: (baseName ++ (".docx".toList))) :: files :=
  fun _ _ _ _ => ⟨rfl, rfl⟩

/-- C6 (counterexample): front-matter parsing is not the identity on
delimiter-free input: python-frontmatter strips the text first, so
the body of `"Body\n"` comes back as `"Body"`, not unchanged. -/
theorem c6_counterexample :
    parse_markdown ("Body\n".toList) = ([], ("Body".toList)) ∧
    ("Body".toList : PStr) ≠ ("Body\n".toList) :=
  ⟨rfl, by decide⟩

/-- C6 (amended): `parse_markdown` is a total function; on input
whose stripped text has no front-matter block, or a malformed one
with no closing delimiter, it returns the pair of empty metadata and
the stripped input — unchanged except for leading/trailing whitespace
removal, so input without surrounding whitespace comes back
identical; on a YAML parse failure it returns empty metadata with the
raw input; on empty input it returns empty metadata and the empty
body. -/
theorem c6_amended :
    (∀ content : PStr, fmSplit (stripPy content) = none →
      parse_markdown content = ([], stripPy content)) ∧
    (∀ content : PStr, stripPy content = content → fmSplit content = none →
      parse_markdown content = ([], content)) ∧
    (∀ content fm body : PStr, fmSplit (stripPy content) = some (fm, body) →
      miniYaml fm = none → parse_markdown content = ([], content)) ∧
    parse_markdown [] = ([], []) := by
  refine ⟨?_, ?_, ?_, rfl⟩
  · intro content h
    simp only [parse_markdown, h]
  · intro content hs h
    simp only [parse_markdown, hs, h]
  · intro content fm body hsplit hyaml
    simp only [parse_markdown, hsplit, hyaml]

/-- Witness: `c6_amended` on concrete delimiter-free text. -/
theorem c6_amended_witness :
    parse_markdown ("No front matter here".toList) =
      ([], ("No front matter here".toList)) :=
  c6_amended.2.1 ("No front matter here".toList) (by decide) (by decide)

/-- C10: `sanitize_metadata` can merge distinct input keys:
characters outside the allowed set are replaced by underscores rather
than removed, so the distinct keys `'a b'` and `'a_b'` normalise to
the same `'a_b'`; the later entry silently overwrites the earlier one
and the output mapping has fewer entries than the input. -/
theorem c10_key_merging :
    ("a b".toList : PStr) ≠ ("a_b".toList) ∧
    cleanKey ("a b".toList) = ("a_b".toList) ∧
    cleanKey ("a b".toList) = cleanKey ("a_b".toList) ∧
    sanitize_metadata [(("a b".toList), PyVal.pint 1), (("a_b".toList), PyVal.pint 2)] =
      [(("a_b".toList), PyVal.pint 2)] ∧
    (sanitize_metadata
        [(("a b".toList), PyVal.pint 1), (("a_b".toList), PyVal.pint 2)]).length <
      ([(("a b".toList), PyVal.pint 1), (("a_b".toList), PyVal.pint 2)] :
        List (PStr × PyVal)).length :=
  ⟨by decide, by decide, by decide, rfl, by decide⟩

set_option maxRecDepth 40000 in
/-- C4 (code evaluation at the failing input): a file name whose
dot-suffix alone exceeds 255 characters defeats the length cap of
`sanitize_filename`: `255 - len(ext)` is negative, so the Python
slice empties the stem while the whole extension is kept, and the
function returns a 301-character name — above the 255-character
ceiling that both the spec and the code's own comment promise. -/
theorem c4_length_cap_fails :
    (sanitize_filename (['a', '.'] ++ List.replicate 300 'b')).length = 301 ∧
    255 < (sanitize_filename (['a', '.'] ++ List.replicate 300 'b')).length :=
  ⟨by decide, by decide⟩

lemma mem_dictInsert {k : PStr} {v : PyVal} {d : List (PStr × PyVal)}
    {kv : PStr × PyVal} (h : kv ∈ dictInsert k v d) : kv = (k, v) ∨ kv ∈ d := by
  unfold dictInsert at h
  by_cases ha : d.any (fun kv2 => kv2.1 == k) = true
  · rw [if_pos ha] at h
    obtain ⟨kv0, hkv0, heq⟩ := List.mem_map.mp h
    by_cases hk : (kv0.1 == k) = true
    · rw [if_pos hk] at heq; exact Or.inl heq.symm
    · rw [if_neg hk] at heq; exact Or.inr (heq ▸ hkv0)
  · rw [if_neg ha] at h
    rcases List.mem_append.mp h with h1 | h1
    · exact Or.inr h1
    · exact Or.inl (List.mem_singleton.mp h1)

lemma mem_sanitize_foldl :
    ∀ (es acc : List (PStr × PyVal)) (kv : PStr × PyVal),
      kv ∈ es.foldl sanitizeStep acc →
      kv ∈ acc ∨
        ∃ kv0 ∈ es, kv = (cleanKey kv0.1, sanitizeVal kv0.2) ∧ cleanKey kv0.1 ≠ [] := by
  intro es
  induction es with
  | nil => intro acc kv h; exact Or.inl h
  | cons e rest ih =>
      intro acc kv h
      rw [List.foldl_cons] at h
      rcases ih _ kv h with hacc | ⟨kv0, hm, he⟩
      · unfold sanitizeStep at hacc
        by_cases hck : cleanKey e.1 = []
        · rw [if_pos hck] at hacc; exact Or.inl hacc
        · rw [if_neg hck] at hacc
          rcases mem_dictInsert hacc with heq | hin
          · exact Or.inr ⟨e, List.mem_cons_self _ _, heq, hck⟩
          · exact Or.inl hin
      · exact Or.inr ⟨kv0, List.mem_cons_of_mem _ hm, he⟩

lemma cleanKey_chars {k : PStr} {c : Char} (hc : c ∈ cleanKey k) :
    (isPyWord c || c == '-') = true := by
  unfold cleanKey at hc
  obtain ⟨a, _, ha⟩ := List.mem_map.mp (List.take_subset _ _ hc)
  by_cases hg : (isPyWord a || a == '-') = true
  · rw [if_pos hg] at ha; exact ha ▸ hg
  · rw [if_neg hg] at ha; rw [← ha]; decide

lemma cleanKey_length_le {k : PStr} : (cleanKey k).length ≤ 50 := by
  unfold cleanKey
  exact List.length_take_le 50 _

lemma cleanKey_ascii {k : PStr} (hk : ∀ c ∈ k, c.toNat ≤ 0x7F) :
    ∀ c ∈ cleanKey k, (c.isAlphanum || c == '_' || c == '-') = true := by
  intro c hc
  unfold cleanKey at hc
  obtain ⟨a, hamem, ha⟩ := List.mem_map.mp (List.take_subset _ _ hc)
  by_cases hg : (isPyWord a || a == '-') = true
  · rw [if_pos hg] at ha
    subst ha
    have hw : isPyWord a = (a.isAlphanum || a == '_') := by
      unfold isPyWord
      rw [if_pos (hk a hamem)]
    rw [hw] at hg
    simpa [Bool.or_assoc] using hg
  · rw [if_neg hg] at ha; rw [← ha]; decide

lemma cleanListItem_form (v : PyVal) :
    ∃ s : PStr, cleanListItem v = PyVal.pstr s ∧ s.length ≤ 100 := by
  cases v with
  | pstr s => exact ⟨_, rfl, List.length_take_le _ _⟩
  | pint n => exact ⟨_, rfl, List.length_take_le _ _⟩
  | pfloat r => exact ⟨_, rfl, List.length_take_le _ _⟩
  | pbool b => exact ⟨_, rfl, List.length_take_le _ _⟩
  | plist items => exact ⟨_, rfl, List.length_take_le _ _⟩
  | pdict es => exact ⟨_, rfl, List.length_take_le _ _⟩
  | pother r => exact ⟨_, rfl, List.length_take_le _ _⟩

lemma pyListCleanTake_toItems :
    ∀ (n : Nat) (l : PyList),
      PyList.toItems (pyListCleanTake n l) =
        ((PyList.toItems l).take n).map cleanListItem := by
  intro n
  induction n with
  | zero => intro l; rfl
  | succ m ih =>
      intro l
      cases l with
      | nil => rfl
      | cons v t => simp [pyListCleanTake, PyList.toItems, ih t]

lemma sanitizeVal_ok (v : PyVal) :
    (∀ s, sanitizeVal v = PyVal.pstr s → s.length ≤ 500) ∧
    (∀ items, sanitizeVal v = PyVal.plist items →
      (PyList.toItems items).length ≤ 10 ∧
      ∀ it ∈ PyList.toItems items, ∃ s2, it = PyVal.pstr s2 ∧ s2.length ≤ 100) := by
  cases v with
  | pstr s0 =>
      refine ⟨fun s h => ?_, fun items h => ?_⟩
      · have h2 : PyVal.pstr (cleanStrVal s0) = PyVal.pstr s := h
        injection h2 with h3
        rw [← h3]
        exact List.length_take_le _ _
      · have h2 : PyVal.pstr (cleanStrVal s0) = PyVal.plist items := h
        cases h2
  | pint n =>
      refine ⟨fun s h => ?_, fun items h => ?_⟩
      · have h2 : PyVal.pint n = PyVal.pstr s := h; cases h2
      · have h2 : PyVal.pint n = PyVal.plist items := h; cases h2
  | pfloat r =>
      refine ⟨fun s h => ?_, fun items h => ?_⟩
      · have h2 : PyVal.pfloat r = PyVal.pstr s := h; cases h2
      · have h2 : PyVal.pfloat r = PyVal.plist items := h; cases h2
  | pbool b =>
      refine ⟨fun s h => ?_, fun items h => ?_⟩
      · have h2 : PyVal.pbool b = PyVal.pstr s := h; cases h2
      · have h2 : PyVal.pbool b = PyVal.plist items := h; cases h2
  | plist items0 =>
      refine ⟨fun s h => ?_, fun items h => ?_⟩
      · have h2 : PyVal.plist (pyListCleanTake 10 items0) = PyVal.pstr s := h
        cases h2
      · have h2 : PyVal.plist (pyListCleanTake 10 items0) = PyVal.plist items := h
        injection h2 with h3
        rw [← h3, pyListCleanTake_toItems]
        constructor
        · rw [List.length_map]
          exact List.length_take_le _ _
        · intro it hit
          obtain ⟨x, _, hx⟩ := List.mem_map.mp hit
          rw [← hx]
          exact cleanListItem_form x
  | pdict es =>
      refine ⟨fun s h => ?_, fun items h => ?_⟩
      · have h2 : PyVal.pdict (sanitizeDictAux es PyDict.nil) = PyVal.pstr s := h
        cases h2
      · have h2 : PyVal.pdict (sanitizeDictAux es PyDict.nil) = PyVal.plist items := h
        cases h2
  | pother r =>
      refine ⟨fun s h => ?_, fun items h => ?_⟩
      · have h2 : PyVal.pstr ((stripTags r).take 500) = PyVal.pstr s := h
        injection h2 with h3
        rw [← h3]
        exact List.length_take_le _ _
      · have h2 : PyVal.pstr ((stripTags r).take 500) = PyVal.plist items := h
        cases h2

/-- C2 (counterexample): `re.sub(r'[^\w-]', '_', key)` works on
Unicode word characters, so the key `'é'` — a single Unicode letter —
passes through `sanitize_metadata` unchanged and violates the spec's
ASCII pattern `^[A-Za-z0-9_-]{1,50}$`. -/
theorem c2_counterexample :
    sanitize_metadata [((['é'] : PStr), PyVal.pint 1)] =
      [((['é'] : PStr), PyVal.pint 1)] ∧
    specKeyPattern ['é'] = false :=
  ⟨rfl, by decide⟩

/-- C2 (amended): every key of `sanitize_metadata`'s output is
nonempty, at most 50 characters, and consists only of Python word
characters and hyphens (offending characters are replaced by
underscores, and keys that normalise to empty are dropped); when all
input keys are ASCII the output keys match `^[A-Za-z0-9_-]{1,50}$`.
Output string values never exceed 500 characters, list values are
capped at 10 items of at most 100 characters each, and numeric,
float and boolean values pass through unchanged. -/
theorem c2_amended :
    ∀ md : List (PStr × PyVal),
      (∀ kv ∈ sanitize_metadata md,
        kv.1 ≠ [] ∧ kv.1.length ≤ 50 ∧
        ∀ c ∈ kv.1, (isPyWord c || c == '-') = true) ∧
      ((∀ kv ∈ md, ∀ c ∈ kv.1, c.toNat ≤ 0x7F) →
        ∀ kv ∈ sanitize_metadata md, specKeyPattern kv.1 = true) ∧
      (∀ kv ∈ sanitize_metadata md,
        (∀ s, kv.2 = PyVal.pstr s → s.length ≤ 500) ∧
        (∀ items, kv.2 = PyVal.plist items →
          (PyList.toItems items).length ≤ 10 ∧
          ∀ it ∈ PyList.toItems items, ∃ s2, it = PyVal.pstr s2 ∧ s2.length ≤ 100)) ∧
      (∀ n : Int, sanitizeVal (PyVal.pint n) = PyVal.pint n) ∧
      (∀ r : PStr, sanitizeVal (PyVal.pfloat r) = PyVal.pfloat r) ∧
      (∀ b : Bool, sanitizeVal (PyVal.pbool b) = PyVal.pbool b) := by
  intro md
  have horigin : ∀ kv ∈ sanitize_metadata md,
      ∃ kv0 ∈ md, kv = (cleanKey kv0.1, sanitizeVal kv0.2) ∧ cleanKey kv0.1 ≠ [] := by
    intro kv h
    rw [sanitize_metadata_eq_foldl] at h
    rcases mem_sanitize_foldl md [] kv h with h0 | h0
    · cases h0
    · exact h0
  refine ⟨?_, ?_, ?_, fun n => rfl, fun r => rfl, fun b => rfl⟩
  · intro kv h
    obtain ⟨kv0, _, heq, hne⟩ := horigin kv h
    rw [heq]
    exact ⟨hne, cleanKey_length_le, fun c hc => cleanKey_chars hc⟩
  · intro hascii kv h
    obtain ⟨kv0, hm, heq, hne⟩ := horigin kv h
    rw [heq]
    have h1 : 0 < (cleanKey kv0.1).length := List.length_pos.mpr hne
    have h2 : (cleanKey kv0.1).length ≤ 50 := cleanKey_length_le
    have h3 := cleanKey_ascii (fun c hc => hascii kv0 hm c hc)
    simp only [specKeyPattern, Bool.and_eq_true, decide_eq_true_eq, List.all_eq_true]
    exact ⟨⟨h1, h2⟩, h3⟩
  · intro kv h
    obtain ⟨kv0, _, heq, _⟩ := horigin kv h
    rw [heq]
    exact sanitizeVal_ok kv0.2

/-- Witness: `c2_amended` applied to the ASCII metadata
`{'a b': 3}`, whose sanitized key is `'a_b'`. -/
theorem c2_amended_witness :
    specKeyPattern (("a_b".toList, PyVal.pint 3) : PStr × PyVal).1 = true :=
  (c2_amended [(("a b".toList), PyVal.pint 3)]).2.1 (by decide)
    (("a_b".toList), PyVal.pint 3) (List.mem_singleton.mpr rfl)

lemma occurs_cons {pat : PStr} (a : Char) {s : PStr}
    (h : (firstSubIdx pat s).isSome = true) :
    (firstSubIdx pat (a :: s)).isSome = true := by
  rw [firstSubIdx]
  by_cases hp : pat.isPrefixOf (a :: s) = true
  · rw [if_pos hp]; rfl
  · rw [if_neg hp]
    simpa using h

lemma occurs_append_left {pat : PStr} (pre : PStr) {s : PStr}
    (h : (firstSubIdx pat s).isSome = true) :
    (firstSubIdx pat (pre ++ s)).isSome = true := by
  induction pre with
  | nil => exact h
  | cons a r ih => exact occurs_cons a ih

lemma occurs_self (p : PStr) : (firstSubIdx p p).isSome = true := by
  cases p with
  | nil => rfl
  | cons a r =>
      rw [firstSubIdx, if_pos (by rw [List.isPrefixOf_iff_prefix])]
      rfl

lemma occurs_append_right {pat s : PStr} (post : PStr)
    (h : (firstSubIdx pat s).isSome = true) :
    (firstSubIdx pat (s ++ post)).isSome = true := by
  induction s with
  | nil =>
      by_cases hp : pat = []
      · subst hp
        cases post with
        | nil => rfl
        | cons a r =>
            rw [List.nil_append, firstSubIdx,
              if_pos (by rw [List.isPrefixOf_iff_prefix]; exact List.nil_prefix)]
            rfl
      · rw [firstSubIdx, if_neg hp] at h; cases h
  | cons a rest ih =>
      rw [firstSubIdx] at h
      by_cases hp : pat.isPrefixOf (a :: rest) = true
      · rw [List.cons_append, firstSubIdx, if_pos ?hp2]
        · rfl
        case hp2 =>
          rw [List.isPrefixOf_iff_prefix] at hp ⊢
          exact hp.trans ⟨post, rfl⟩
      · rw [if_neg hp] at h
        have h2 : (firstSubIdx pat rest).isSome = true := by simpa using h
        rw [List.cons_append]
        exact occurs_cons a (ih h2)

lemma panel_contains_field {md : List (PStr × PyVal)} {kv : PStr × PyVal}
    (h : kv ∈ md) :
    (firstSubIdx (fmHtmlField kv) (format_front_matter_html md)).isSome = true := by
  obtain ⟨s, t, rfl⟩ := List.append_of_mem h
  unfold format_front_matter_html
  refine occurs_append_right _ (occurs_append_left _ ?_)
  have hfl : ((s ++ kv :: t).map fmHtmlField).flatten =
      (s.map fmHtmlField).flatten ++ (fmHtmlField kv ++ (t.map fmHtmlField).flatten) := by
    simp
  rw [hfl]
  exact occurs_append_left _ (occurs_append_right _ (occurs_self _))

lemma prefix_joinNl {pre x : PStr} (xs : List PStr) (h : pre <+: x) :
    List.isPrefixOf pre (joinNl (x :: xs)) = true := by
  rw [List.isPrefixOf_iff_prefix]
  cases xs with
  | nil => exact h
  | cons y ys =>
      exact h.trans ((List.prefix_append _ _).trans (List.prefix_append _ _))

set_option maxRecDepth 40000 in
/-- C5 (counterexample): the two renderers do not agree on front
matter.  For metadata inserted as author-then-title, the
structured-document renderer reorders it (the title `Report` as an H1
and first), while the PDF panel keeps raw insertion order — `Author`
before `Title` — and renders no title heading at all. -/
theorem c5_counterexample :
    occursBefore ("# Report".toList) ("**Author:** Jane".toList)
      (format_front_matter [(("author".toList), PyVal.pstr ("Jane".toList)),
        (("title".toList), PyVal.pstr ("Report".toList))]) = true ∧
    occursBefore ("<strong>Author:</strong>".toList) ("<strong>Title:</strong>".toList)
      (format_front_matter_html [(("author".toList), PyVal.pstr ("Jane".toList)),
        (("title".toList), PyVal.pstr ("Report".toList))]) = true ∧
    firstSubIdx ("# Report".toList)
      (format_front_matter_html [(("author".toList), PyVal.pstr ("Jane".toList)),
        (("title".toList), PyVal.pstr ("Report".toList))]) = none :=
  ⟨by decide, by decide, by decide⟩

set_option maxRecDepth 40000 in
/-- C5 (amended): with `includeFrontMatter` set, the
structured-document renderer prepends the title as a top-level
heading, then the fixed field order — on the scenario input,
`# Report` appears before `**Author:** Jane`, which appears before
the body.  The PDF renderer instead prepends the bordered
`Document Information` panel containing every metadata field
(`<p><strong>Key:</strong> value</p>`) in dictionary insertion order,
with no title heading, so the two targets agree on field order only
when the metadata already sits in the fixed order. -/
theorem c5_amended :
    (∀ md : List (PStr × PyVal), md ≠ [] →
      List.isPrefixOf (("# ".toList) ++
          pyValStr ((pyGet md ("title".toList)).getD
            (PyVal.pstr ("Untitled Document".toList))))
        (format_front_matter md) = true) ∧
    (occursBefore ("# Report".toList) ("**Author:** Jane".toList)
        (docx_document ("---\ntitle: Report\nauthor: Jane\n---\nBody text".toList)
          true) = true ∧
      occursBefore ("**Author:** Jane".toList) ("Body text".toList)
        (docx_document ("---\ntitle: Report\nauthor: Jane\n---\nBody text".toList)
          true) = true) ∧
    (∀ (md : List (PStr × PyVal)) (kv : PStr × PyVal), kv ∈ md →
      (firstSubIdx (fmHtmlField kv) (format_front_matter_html md)).isSome = true) ∧
    occursBefore ("<strong>Author:</strong>".toList) ("<strong>Title:</strong>".toList)
      (format_front_matter_html [(("author".toList), PyVal.pstr ("Jane".toList)),
        (("title".toList), PyVal.pstr ("Report".toList))]) = true := by
  refine ⟨?_, ⟨by decide, by decide⟩, fun md kv h => panel_contains_field h, by decide⟩
  intro md h
  simp only [format_front_matter]
  rw [if_neg (by simpa [List.isEmpty_iff] using h)]
  rw [List.singleton_append]
  apply prefix_joinNl
  exact List.prefix_append _ _

/-- Witness: `c5_amended` at one-field metadata: the rendered front
matter starts with the title heading. -/
theorem c5_amended_witness :
    List.isPrefixOf (("# ".toList) ++
        pyValStr ((pyGet [(("title".toList), PyVal.pstr ("Report".toList))]
          ("title".toList)).getD (PyVal.pstr ("Untitled Document".toList))))
      (format_front_matter [(("title".toList), PyVal.pstr ("Report".toList))]) = true :=
  c5_amended.1 [(("title".toList), PyVal.pstr ("Report".toList))]
    (List.cons_ne_nil _ _)
